import Mathlib

/-
Verification development for the phonopy lattice thermal conductivity driver
(`anharmonic/phonon3/conductivity.py`) and the FHI-aims geometry reader
(`phonopy/interface/FHIaims.py`).

The Python source is shallowly embedded: integer quantities become `Nat`,
real-valued quantities become `ℚ` (only their data flow matters here, no
floating point rounding is relied upon by any proved statement), numpy
arrays become nested `List`s, Python exceptions become `Except`, and the
stateful `Conductivity` object becomes an explicit state record with
state-passing functions.  External collaborator objects (the phonon-phonon
interaction, the imaginary-self-energy kernel, the isotope kernel and the
grid utilities of `triplets.py`) are not part of the supplied source; their
outputs enter the embedding as explicit parameters / oracle functions.
-/

namespace PhonopyModel

/-! ## Mesh folding: `Conductivity._set_mesh_numbers` -/

/-- Axis names used by the diagnostics, from `["first", "second", "third"][i]`. -/
def axisName (i : ℕ) : String :=
  List.getD ["first", "second", "third"] i ""

/-- Diagnostic printed when a mesh divisor does not divide the mesh number. -/
def divisorMsg (i m d : ℕ) : String :=
  "Mesh number " ++ toString m ++ " for the " ++ axisName i ++
    " axis is not dividable by divisor " ++ toString d ++ "."

/-- Diagnostic printed when a coarse mesh shift is requested on an odd-divisor axis. -/
def shiftMsg (i : ℕ) : String :=
  "Coarse grid along " ++ axisName i ++ " axis can not be shifted. Set False."

/-- The per-axis effective divisor: the requested divisor when it divides the
mesh number, else 1 (embeds the `if m % n == 0` branch of the divisor loop). -/
def divFix (m d : ℕ) : ℕ := if m % d = 0 then d else 1

/-- The per-axis shift flag after validation: reset to `false` when the flag is
set but the effective divisor is odd (embeds the shift-validation loop body). -/
def shiftFix (b : Bool) (d : ℕ) : Bool :=
  if b = true ∧ d % 2 ≠ 0 then false else b

/-- The divisor-validation loop of `_set_mesh_numbers`: walks mesh numbers and
requested divisors in parallel, producing effective divisors and diagnostics. -/
def validateDivisors : List ℕ → List ℕ → ℕ → List ℕ × List String
  | m :: ms, d :: ds, i =>
      let rest := validateDivisors ms ds (i + 1)
      (divFix m d :: rest.fst,
       if m % d = 0 then rest.snd else divisorMsg i m d :: rest.snd)
  | _, _, _ => ([], [])

/-- The shift-validation loop of `_set_mesh_numbers`: resets shift flags on
odd-divisor axes, collecting diagnostics. -/
def validateShifts : List ℕ → List Bool → ℕ → List Bool × List String
  | d :: ds, b :: bs, i =>
      let rest := validateShifts ds bs (i + 1)
      (shiftFix b d :: rest.fst,
       if b = true ∧ d % 2 ≠ 0 then shiftMsg i :: rest.snd else rest.snd)
  | _, _, _ => ([], [])

/-- The mesh bookkeeping produced by `_set_mesh_numbers`: the fine mesh, the
effective divisors, the validated coarse mesh shifts (`none` mirrors Python's
`None`), the coarse mesh, and the diagnostics printed along the way. -/
structure MeshConfig where
  mesh : List ℕ
  meshDivisors : List ℕ
  coarseMeshShifts : Option (List Bool)
  coarseMesh : List ℕ
  diagnostics : List String
  deriving DecidableEq

/-- Embedding of `Conductivity._set_mesh_numbers`.  When `meshDivisors` is
`none` the divisors default to `[1, 1, 1]` and — exactly as in the source —
the `coarseMeshShifts` argument is never consulted: the stored shifts remain
`None` (set in `__init__`) and no validation or diagnostic happens.  When
divisors are given, each axis is validated (`divFix`), then the shifts
(defaulting to all-`false`) are validated against the effective divisors
(`shiftFix`).  The coarse mesh is the componentwise integer quotient. -/
def setMeshNumbers (mesh : List ℕ) (meshDivisors : Option (List ℕ))
    (coarseMeshShifts : Option (List Bool)) : MeshConfig :=
  match meshDivisors with
  | none =>
      { mesh := mesh
        meshDivisors := [1, 1, 1]
        coarseMeshShifts := none
        coarseMesh := List.zipWith (fun m d => m / d) mesh [1, 1, 1]
        diagnostics := [] }
  | some req =>
      let vd := validateDivisors mesh req 0
      let shifts0 := coarseMeshShifts.getD [false, false, false]
      let vs := validateShifts vd.fst shifts0 0
      { mesh := mesh
        meshDivisors := vd.fst
        coarseMeshShifts := some vs.fst
        coarseMesh := List.zipWith (fun m d => m / d) mesh vd.fst
        diagnostics := vd.snd ++ vs.snd }

lemma divFix_mul (m d : ℕ) : m / divFix m d * divFix m d = m := by
  unfold divFix
  split
  · next h => exact Nat.div_mul_cancel (Nat.dvd_of_mod_eq_zero h)
  · simp

lemma shiftFix_even (b : Bool) (d : ℕ) (h : shiftFix b d = true) : d % 2 = 0 := by
  unfold shiftFix at h
  split at h
  · exact absurd h (by simp)
  · next hc =>
      by_cases he : d % 2 = 0
      · exact he
      · exact absurd ⟨h, he⟩ hc

/-- C2: with a provided divisor triple, the effective divisor on axis `i` is
the requested one when `mesh[i] % divisor[i] = 0` and `1` otherwise,
independently per axis and with a diagnostic naming the failing axis, and the
coarse mesh times the effective divisors reproduces the mesh exactly;
`setMeshNumbers` is a total function, so invalid divisors never raise. -/
theorem mesh_divisor_fallback (m1 m2 m3 d1 d2 d3 : ℕ) (sh : Option (List Bool))
    (hm1 : 0 < m1) (hm2 : 0 < m2) (hm3 : 0 < m3)
    (hd1 : 0 < d1) (hd2 : 0 < d2) (hd3 : 0 < d3) :
    (setMeshNumbers [m1, m2, m3] (some [d1, d2, d3]) sh).meshDivisors =
      [if m1 % d1 = 0 then d1 else 1,
       if m2 % d2 = 0 then d2 else 1,
       if m3 % d3 = 0 then d3 else 1]
    ∧ List.zipWith (fun c d => c * d)
        (setMeshNumbers [m1, m2, m3] (some [d1, d2, d3]) sh).coarseMesh
        (setMeshNumbers [m1, m2, m3] (some [d1, d2, d3]) sh).meshDivisors
        = [m1, m2, m3]
    ∧ (m1 % d1 ≠ 0 →
        divisorMsg 0 m1 d1 ∈ (setMeshNumbers [m1, m2, m3] (some [d1, d2, d3]) sh).diagnostics)
    ∧ (m2 % d2 ≠ 0 →
        divisorMsg 1 m2 d2 ∈ (setMeshNumbers [m1, m2, m3] (some [d1, d2, d3]) sh).diagnostics)
    ∧ (m3 % d3 ≠ 0 →
        divisorMsg 2 m3 d3 ∈ (setMeshNumbers [m1, m2, m3] (some [d1, d2, d3]) sh).diagnostics) := by
  refine ⟨?_, ?_, ?_, ?_, ?_⟩
  · simp [setMeshNumbers, validateDivisors, divFix]
  · simp [setMeshNumbers, validateDivisors, divFix_mul]
  · intro h
    simp [setMeshNumbers, validateDivisors, h]
  · intro h
    simp only [setMeshNumbers, validateDivisors]
    split_ifs <;> simp [h]
  · intro h
    simp only [setMeshNumbers, validateDivisors]
    split_ifs <;> simp [h]

/-- C2 witness at mesh `[4, 6, 5]` with requested divisors `[2, 4, 1]`. -/
theorem mesh_divisor_fallback_witness :
    ((0 : ℕ) < 4 ∧ (0 : ℕ) < 6 ∧ (0 : ℕ) < 5 ∧ (0 : ℕ) < 2 ∧ (0 : ℕ) < 4 ∧ (0 : ℕ) < 1)
    ∧ ((setMeshNumbers [4, 6, 5] (some [2, 4, 1]) none).meshDivisors =
        [if 4 % 2 = 0 then 2 else 1, if 6 % 4 = 0 then 4 else 1, if 5 % 1 = 0 then 1 else 1]
      ∧ List.zipWith (fun c d => c * d)
          (setMeshNumbers [4, 6, 5] (some [2, 4, 1]) none).coarseMesh
          (setMeshNumbers [4, 6, 5] (some [2, 4, 1]) none).meshDivisors = [4, 6, 5]
      ∧ (4 % 2 ≠ 0 →
          divisorMsg 0 4 2 ∈ (setMeshNumbers [4, 6, 5] (some [2, 4, 1]) none).diagnostics)
      ∧ (6 % 4 ≠ 0 →
          divisorMsg 1 6 4 ∈ (setMeshNumbers [4, 6, 5] (some [2, 4, 1]) none).diagnostics)
      ∧ (5 % 1 ≠ 0 →
          divisorMsg 2 5 1 ∈ (setMeshNumbers [4, 6, 5] (some [2, 4, 1]) none).diagnostics)) :=
  ⟨by decide,
   mesh_divisor_fallback 4 6 5 2 4 1 none (by decide) (by decide) (by decide)
     (by decide) (by decide) (by decide)⟩

/-- C3 counterexample: with `mesh_divisors = None` (all effective divisors 1,
hence odd) and all three shift flags requested `true`, the source ignores the
`coarse_mesh_shifts` argument entirely: the stored shifts stay `None` — they
are not reset to `[false, false, false]` — and no diagnostic is emitted. -/
theorem coarse_shift_claim_cex :
    (setMeshNumbers [4, 4, 4] none (some [true, true, true])).coarseMeshShifts = none
    ∧ (setMeshNumbers [4, 4, 4] none (some [true, true, true])).coarseMeshShifts ≠
        some [false, false, false]
    ∧ (setMeshNumbers [4, 4, 4] none (some [true, true, true])).diagnostics = []
    ∧ (setMeshNumbers [4, 4, 4] none (some [true, true, true])).meshDivisors = [1, 1, 1] := by
  refine ⟨rfl, by decide, rfl, rfl⟩

/-- C3 (amended): when `mesh_divisors` is provided, each shift flag on an axis
whose effective divisor is odd is reset to `false` with a diagnostic naming
the axis, so a stored flag is `true` only on even-effective-divisor axes;
when `mesh_divisors` is `None` the `coarse_mesh_shifts` argument is ignored —
the stored shifts remain `None` (so no flag is `true`) and no diagnostic is
emitted. -/
theorem coarse_shift_validation (m1 m2 m3 d1 d2 d3 : ℕ) (b1 b2 b3 : Bool) :
    (setMeshNumbers [m1, m2, m3] (some [d1, d2, d3]) (some [b1, b2, b3])).coarseMeshShifts =
      some [shiftFix b1 (divFix m1 d1), shiftFix b2 (divFix m2 d2), shiftFix b3 (divFix m3 d3)]
    ∧ (b1 = true → divFix m1 d1 % 2 ≠ 0 →
        shiftMsg 0 ∈ (setMeshNumbers [m1, m2, m3] (some [d1, d2, d3]) (some [b1, b2, b3])).diagnostics)
    ∧ (b2 = true → divFix m2 d2 % 2 ≠ 0 →
        shiftMsg 1 ∈ (setMeshNumbers [m1, m2, m3] (some [d1, d2, d3]) (some [b1, b2, b3])).diagnostics)
    ∧ (b3 = true → divFix m3 d3 % 2 ≠ 0 →
        shiftMsg 2 ∈ (setMeshNumbers [m1, m2, m3] (some [d1, d2, d3]) (some [b1, b2, b3])).diagnostics)
    ∧ (shiftFix b1 (divFix m1 d1) = true → divFix m1 d1 % 2 = 0)
    ∧ (shiftFix b2 (divFix m2 d2) = true → divFix m2 d2 % 2 = 0)
    ∧ (shiftFix b3 (divFix m3 d3) = true → divFix m3 d3 % 2 = 0)
    ∧ (setMeshNumbers [m1, m2, m3] none (some [b1, b2, b3])).coarseMeshShifts = none
    ∧ (setMeshNumbers [m1, m2, m3] none (some [b1, b2, b3])).diagnostics = [] := by
  refine ⟨rfl, ?_, ?_, ?_, shiftFix_even b1 _, shiftFix_even b2 _, shiftFix_even b3 _, rfl, rfl⟩
  · intro hb hodd
    simp only [setMeshNumbers, validateDivisors, validateShifts, Option.getD]
    simp [hb, hodd]
  · intro hb hodd
    simp only [setMeshNumbers, validateDivisors, validateShifts, Option.getD]
    split_ifs <;> simp_all
  · intro hb hodd
    simp only [setMeshNumbers, validateDivisors, validateShifts, Option.getD]
    split_ifs <;> simp_all

/-- C3 witness: mesh `[4, 6, 5]`, divisors `[2, 3, 1]`, all shifts requested;
the even-divisor axis keeps its shift, the odd ones are reset with diagnostics. -/
theorem coarse_shift_validation_witness :
    ((setMeshNumbers [4, 6, 5] (some [2, 3, 1]) (some [true, true, true])).coarseMeshShifts =
      some [shiftFix true (divFix 4 2), shiftFix true (divFix 6 3), shiftFix true (divFix 5 1)]
    ∧ (true = true → divFix 6 3 % 2 ≠ 0 →
        shiftMsg 1 ∈ (setMeshNumbers [4, 6, 5] (some [2, 3, 1]) (some [true, true, true])).diagnostics))
    ∧ shiftFix true (divFix 4 2) = true ∧ shiftFix true (divFix 6 3) = false := by
  refine ⟨⟨(coarse_shift_validation 4 6 5 2 3 1 true true true).1, ?_⟩, by decide, by decide⟩
  exact (coarse_shift_validation 4 6 5 2 3 1 true true true).2.2.1

/-! ## Result tensors and the per-sigma kernel loops -/

/-- Nested-list tensors standing in for the numpy result arrays. -/
abbrev T1 := List ℚ
abbrev T2 := List T1
abbrev T3 := List T2
abbrev T4 := List T3
abbrev T5 := List T4

def zeros1 (a : ℕ) : T1 := List.replicate a 0
def zeros2 (a b : ℕ) : T2 := List.replicate a (zeros1 b)
def zeros3 (a b c : ℕ) : T3 := List.replicate a (zeros2 b c)
def zeros4 (a b c d : ℕ) : T4 := List.replicate a (zeros3 b c d)
def zeros5 (a b c d e : ℕ) : T5 := List.replicate a (zeros4 b c d e)

/-- Replaces the element at index `n` (out-of-range indices leave the list
unchanged), the building block for numpy slice assignment. -/
def listModify {α : Type} : List α → ℕ → (α → α) → List α
  | [], _, _ => []
  | a :: t, 0, f => f a :: t
  | a :: t, n + 1, f => a :: listModify t n f

/-- Assignment `gamma[j, i, k] = v`. -/
def tensor4Set (g : T4) (j i k : ℕ) (v : T1) : T4 :=
  listModify g j (fun a => listModify a i (fun b => listModify b k (fun _ => v)))

/-- Assignment `gamma_iso[j, i] = v`. -/
def tensor3Set (g : T3) (j i : ℕ) (v : T1) : T3 :=
  listModify g j (fun a => listModify a i (fun _ => v))

/-- The calls `_set_gamma_at_sigmas` issues to the imaginary-self-energy
kernel, recorded as a trace. -/
inductive ISECall
  | setSigma (s : Option ℚ)
  | setIntegrationWeights
  | setTemperature (t : ℚ)
  | runKernel
  deriving DecidableEq

/-- Python truthiness of a smearing entry: `not sigma` is `True` both for the
tetrahedron sentinel `None` and for the numeric width `0`. -/
def pyFalsy (s : Option ℚ) : Bool :=
  match s with
  | none => true
  | some x => x == 0

/-- Number of `set_integration_weights` requests in a trace. -/
def countIW : List ISECall → ℕ
  | [] => 0
  | ISECall.setIntegrationWeights :: rest => countIW rest + 1
  | _ :: rest => countIW rest

/-- The inner temperature loop of `_set_gamma_at_sigmas`: for each temperature
(at running index `k`) the kernel is configured and run, and its per-band
output is written to `gamma[j, i, k]`.  `iseOut σ t` is the oracle for
`get_imag_self_energy()` after `set_sigma(σ)`/`set_temperature(t)`. -/
def setGammaTempLoop (iseOut : Option ℚ → ℚ → T1) (sigma : Option ℚ) (j i : ℕ) :
    List ℚ → ℕ → T4 → T4 × List ISECall
  | [], _, g => (g, [])
  | t :: ts, k, g =>
      let g1 := tensor4Set g j i k (iseOut sigma t)
      let rest := setGammaTempLoop iseOut sigma j i ts (k + 1) g1
      (rest.fst, ISECall.setTemperature t :: ISECall.runKernel :: rest.snd)

/-- The outer sigma loop of `_set_gamma_at_sigmas`: per smearing entry the
sigma is configured, integration weights are requested when `not sigma`
(Python truthiness), and the temperature loop runs. -/
def setGammaSigmaLoop (iseOut : Option ℚ → ℚ → T1) (temps : List ℚ) (i : ℕ) :
    List (Option ℚ) → ℕ → T4 → T4 × List ISECall
  | [], _, g => (g, [])
  | s :: ss, j, g =>
      let pre := ISECall.setSigma s ::
        (if pyFalsy s then [ISECall.setIntegrationWeights] else [])
      let inner := setGammaTempLoop iseOut s j i temps 0 g
      let rest := setGammaSigmaLoop iseOut temps i ss (j + 1) inner.fst
      (rest.fst, pre ++ inner.snd ++ rest.snd)

/-- Embedding of `Conductivity._set_gamma_at_sigmas(i)`: returns the updated
`gamma` tensor together with the trace of kernel calls it issued. -/
def setGammaAtSigmas (sigmas : List (Option ℚ)) (temps : List ℚ)
    (iseOut : Option ℚ → ℚ → T1) (i : ℕ) (g : T4) : T4 × List ISECall :=
  setGammaSigmaLoop iseOut temps i sigmas 0 g

/-- The sigma loop of `_set_gamma_isotope_at_sigmas`: writes the isotope
kernel's per-band output into `gamma_iso[j, i]` for every smearing entry. -/
def isoSigmaLoop (isoOut : Option ℚ → T1) (i : ℕ) :
    List (Option ℚ) → ℕ → T3 → T3
  | [], _, g => g
  | s :: ss, j, g => isoSigmaLoop isoOut i ss (j + 1) (tensor3Set g j i (isoOut s))

/-- Embedding of `Conductivity._set_gamma_isotope_at_sigmas(i)`. -/
def setGammaIsotopeAtSigmas (sigmas : List (Option ℚ)) (isoOut : Option ℚ → T1)
    (i : ℕ) (g : T3) : T3 :=
  isoSigmaLoop isoOut i sigmas 0 g

/-! ## The conductivity driver state -/

/-- The mutable state of a `Conductivity` instance (the fields the supplied
source reads or writes). -/
structure CondState where
  mesh : List ℕ
  meshDivisors : List ℕ
  sigmas : List (Option ℚ)
  temperatures : List ℚ
  gridPoints : List ℕ
  gridWeights : List ℕ
  qpoints : List (List ℚ)
  frequencies : List (List ℚ)
  gridPointCount : ℕ
  sumNumKstar : ℕ
  readGamma : Bool
  gamma : T4
  gammaIso : T3
  kappa : T5
  gv : T3
  cv : T3
  deriving DecidableEq

/-- Embedding of `Conductivity.set_gamma`: stores the external array and sets
the externally-supplied flag. -/
def setGamma (s : CondState) (g : T4) : CondState :=
  { s with gamma := g, readGamma := true }

/-- Embedding of `Conductivity.get_grid_point_count`. -/
def getGridPointCount (s : CondState) : ℕ := s.gridPointCount

/-- Embedding of `Conductivity.get_grid_weights`. -/
def getGridWeights (s : CondState) : List ℕ := s.gridWeights

/-- Embedding of `Conductivity.get_gamma`. -/
def getGamma (s : CondState) : T4 := s.gamma

/-- Embedding of `Conductivity._allocate_values`: zero-fills every result
tensor; `gamma` is reallocated only when no external array was supplied
(`if not self._read_gamma`).  No property of the supplied `gamma` (its shape
included) is ever inspected. -/
def allocateValues (numAtoms : ℕ) (s : CondState) : CondState :=
  let numBand := numAtoms * 3
  let nS := s.sigmas.length
  let nG := s.gridPoints.length
  let nT := s.temperatures.length
  { s with
    kappa := zeros5 nS nG nT numBand 6
    gamma := if s.readGamma then s.gamma else zeros4 nS nG nT numBand
    gv := zeros3 nG numBand 3
    cv := zeros3 nG nT numBand
    gammaIso := zeros3 nS nG numBand }

/-- The value `np.prod(self._mesh / self._mesh_divisors)` of the automatic
sampling assertion (componentwise integer division, as in Python 2 numpy). -/
def coarseSizeOf (s : CondState) : ℕ :=
  (List.zipWith (fun m d => m / d) s.mesh s.meshDivisors).prod

/-- Embedding of `Conductivity.initialize(None)` with `no_kappa_stars` false
(the automatic sampling branch).  The outputs of the external grid utilities
(`get_ir_grid_points` / `from_coarse_to_dense_grid_points` /
`get_grid_address`) enter as parameters: `coarseGridWeights` are the
irreducible-point weights, `densePoints` the fine-mesh indices they expand
to, `gridAddress` the fine-grid address table, `freqs` the phonon
frequencies primed by `set_phonon`.  The `assert` on the weight sum becomes
`Except.error` (Python's `AssertionError` aborts initialization). -/
def initAutoSampling (coarseGridWeights densePoints : List ℕ)
    (gridAddress : ℕ → List ℤ) (freqs : List (List ℚ)) (numAtoms : ℕ)
    (s : CondState) : Except String CondState :=
  let s1 := { s with gridPoints := densePoints, gridWeights := coarseGridWeights }
  if s1.gridWeights.sum = coarseSizeOf s1 then
    let qpts := s1.gridPoints.map (fun gp =>
      List.zipWith (fun a m => (a : ℚ) / (m : ℚ)) (gridAddress gp) s1.mesh)
    let s2 := { s1 with qpoints := qpts, sumNumKstar := 0, gridPointCount := 0 }
    Except.ok { allocateValues numAtoms s2 with frequencies := freqs }
  else
    Except.error "grid weight sum does not match coarse mesh size"

/-- The external physical kernels the per-point step drives, as output
oracles: `iseOut` the imaginary-self-energy kernel, `isoOut` the isotope
kernel, `gvOut`/`cvOut` the group-velocity and heat-capacity computation,
`kappaOut` the conductivity contribution of one grid point, `starSize` the
symmetry-star multiplicity added to the sampled-stars total. -/
structure Kernels where
  iseOut : Option ℚ → ℚ → T1
  isoOut : Option ℚ → T1
  isotopeConfigured : Bool
  gvOut : ℕ → T2
  cvOut : ℕ → T2
  kappaOut : CondState → ℕ → T4
  starSize : ℕ → ℕ

/-- Writes `kappa[j][i] := contrib[j]` for every sigma index `j`: the
exactly-once write of grid point `i`'s slice of the conductivity tensor. -/
def writePointSlice (kp : T5) (i : ℕ) (contrib : T4) : T5 :=
  kp.mapIdx (fun j slice => listModify slice i (fun old => contrib.getD j old))

/-- Modelled from the spec: `_run_at_grid_point` is not part of the supplied
source (it is implemented by `Conductivity` subclasses); per the spec's §4.4
per-point protocol it (1) computes the thermal linewidth via
`_set_gamma_at_sigmas` — skipped entirely when `gamma` was externally
supplied, (2) computes the isotope linewidth when isotope scattering is
configured, (3) records group velocity and heat capacity and accumulates the
point's conductivity contribution and star multiplicity. -/
def runAtGridPoint (ker : Kernels) (s : CondState) (i : ℕ) : CondState :=
  let s1 :=
    if s.readGamma then s
    else { s with gamma := (setGammaAtSigmas s.sigmas s.temperatures ker.iseOut i s.gamma).fst }
  let s2 :=
    if ker.isotopeConfigured
    then { s1 with gammaIso := setGammaIsotopeAtSigmas s1.sigmas ker.isoOut i s1.gammaIso }
    else s1
  let s3 := { s2 with
    gv := listModify s2.gv i (fun _ => ker.gvOut i)
    cv := listModify s2.cv i (fun _ => ker.cvOut i) }
  { s3 with
    kappa := writePointSlice s3.kappa i (ker.kappaOut s3 i)
    sumNumKstar := s3.sumNumKstar + ker.starSize i }

/-- Embedding of `Conductivity.next`: `StopIteration` (modelled as
`Except.error ()`, a terminal signal distinct from any `Except.error msg`
of type `String` used for real failures) is raised when the counter has
reached the number of grid points, leaving the state untouched; otherwise one
grid point is processed, the counter incremented, and the zero-based index of
the processed point returned. -/
def nextStep (ker : Kernels) (s : CondState) : CondState × Except Unit ℕ :=
  if s.gridPointCount = s.gridPoints.length then
    (s, Except.error ())
  else
    let s1 := runAtGridPoint ker s s.gridPointCount
    let s2 := { s1 with gridPointCount := s1.gridPointCount + 1 }
    (s2, Except.ok (s2.gridPointCount - 1))

/-- Fuel-indexed iteration of `nextStep`, stopping at exhaustion: applying it
with fuel `n` is exactly "calling next `n` times or until StopIteration". -/
def runN (ker : Kernels) : ℕ → CondState → CondState
  | 0, s => s
  | n + 1, s =>
      match nextStep ker s with
      | (_, Except.error _) => s
      | (s1, Except.ok _) => runN ker n s1

/-- Embedding of `Conductivity.run` (`for i in self: pass`): drives `nextStep`
until exhaustion; the remaining-points count is exactly the number of
successful advances left. -/
def runDrive (ker : Kernels) (s : CondState) : CondState :=
  runN ker (s.gridPoints.length - s.gridPointCount) s

/-- Calling `next` exactly `n` times, keeping the state a raised
`StopIteration` leaves behind. -/
def advanceN (ker : Kernels) : ℕ → CondState → CondState
  | 0, s => s
  | n + 1, s => advanceN ker n (nextStep ker s).fst

/-- Whether a 4-index tensor has shape `a × b × c × d`. -/
def shape4Ok (g : T4) (a b c d : ℕ) : Bool :=
  g.length == a && g.all (fun x => x.length == b &&
    x.all (fun y => y.length == c && y.all (fun z => z.length == d)))

/-- Whether an `Except` result is a success. -/
def exceptOk {ε α : Type} : Except ε α → Bool
  | Except.ok _ => true
  | Except.error _ => false

/-- A small concrete driver state used by the witnesses: mesh `[2, 2, 1]`,
unit divisors (coarse mesh size 4), one tetrahedron smearing entry, one
temperature, no grid points selected yet. -/
def demoState : CondState :=
  { mesh := [2, 2, 1], meshDivisors := [1, 1, 1], sigmas := [none], temperatures := [0]
    gridPoints := [], gridWeights := [], qpoints := [], frequencies := []
    gridPointCount := 0, sumNumKstar := 0, readGamma := false
    gamma := [], gammaIso := [], kappa := [], gv := [], cv := [] }

/-- Concrete kernel oracles used by the witnesses. -/
def demoKernels : Kernels :=
  { iseOut := fun _ _ => [0, 0, 0], isoOut := fun _ => [0, 0, 0], isotopeConfigured := false
    gvOut := fun _ => [], cvOut := fun _ => [], kappaOut := fun _ _ => [], starSize := fun _ => 1 }

/-- Concrete grid-address table used by the witnesses. -/
def demoAddr : ℕ → List ℤ := fun _ => [0, 0, 0]

/-- The demo state after automatic-sampling initialization with one grid
point of weight 4. -/
def demoInitW : CondState :=
  (initAutoSampling [4] [0] demoAddr [] 1 demoState).toOption.getD demoState

/-- An externally supplied gamma tensor for the witnesses. -/
def demoGamma : T4 := [[[[1, 2, 3]]]]

/-- The demo state initialized after `set_gamma demoGamma`. -/
def demoInitG : CondState :=
  (initAutoSampling [4] [0] demoAddr [] 1 (setGamma demoState demoGamma)).toOption.getD demoState

/-- A malformed external gamma: the demo run expects shape 1×1×1×3. -/
def demoBadGamma : T4 := [[[[1, 2]]]]

/-- The demo state initialized after `set_gamma demoBadGamma`. -/
def demoInitBad : CondState :=
  (initAutoSampling [4] [0] demoAddr [] 1 (setGamma demoState demoBadGamma)).toOption.getD demoState

/-! ## The FHI-aims geometry reader: `read_aims` -/

/-- A tokenized line of an FHI-aims geometry file, covering the keyword forms
`read_aims` dispatches on (numeric fields already parsed, as Python's
`float`): `lattice_vector x y z`, `atom x y z sym`, `atom_frac x y z sym`,
`initial_moment m`, `constrain_relaxation arg`; `other` stands for any blank,
comment or unrecognized line (all skipped by the loop). -/
inductive AimsLine
  | latticeVector (v : List ℚ)
  | atomLine (frac : Bool) (pos : List ℚ) (sym : String)
  | initialMoment (m : ℚ)
  | constrainRelaxation (arg : String)
  | other
  deriving DecidableEq

/-- The accumulator state of the `read_aims` parsing loop. -/
structure AimsParse where
  cell : List (List ℚ)
  isFrac : List Bool
  positions : List (List ℚ)
  symbols : List String
  magmoms : List (Option ℚ)
  constraints : List Bool
  constrainWarning : Bool
  deriving DecidableEq

/-- The loop accumulators before any line is read (`constrain_warning` starts
`True`, so a leading `constrain_relaxation` is an error). -/
def initAimsParse : AimsParse :=
  { cell := [], isFrac := [], positions := [], symbols := [], magmoms := []
    constraints := [], constrainWarning := true }

/-- Python's `l[-1] = v` on a nonempty list. -/
def setLast {α : Type} (l : List α) (v : α) : List α := l.dropLast ++ [v]

/-- One iteration of the `read_aims` line loop.  Python exceptions
(`IndexError` on `magmoms[-1]` with no atom yet, `RuntimeError` for a
misplaced `constrain_relaxation`) become `Except.error`. -/
def parseAimsLine (st : AimsParse) : AimsLine → Except String AimsParse
  | AimsLine.latticeVector v => Except.ok { st with cell := st.cell ++ [v] }
  | AimsLine.atomLine f p sym =>
      Except.ok { st with
        isFrac := st.isFrac ++ [f]
        positions := st.positions ++ [p]
        symbols := st.symbols ++ [sym]
        magmoms := st.magmoms ++ [none]
        constraints := st.constraints ++ [false]
        constrainWarning := false }
  | AimsLine.initialMoment m =>
      if st.magmoms.isEmpty then Except.error "list index out of range"
      else Except.ok { st with magmoms := setLast st.magmoms (some m) }
  | AimsLine.constrainRelaxation arg =>
      if st.constrainWarning then
        Except.error "constrain_relaxation found in wrong place"
      else
        Except.ok { st with
          constraints := if arg = ".true." then setLast st.constraints true else st.constraints
          constrainWarning := true }
  | AimsLine.other => Except.ok st

/-- The whole parsing loop of `read_aims`. -/
def parseAims (lines : List AimsLine) : Except String AimsParse :=
  List.foldlM parseAimsLine initAimsParse lines

/-- The fractional-to-Cartesian conversion of `read_aims`:
`pos[i] = sum over l of frac[l] * cell[l][i]` for `i` in `0..2`. -/
def fracToCartesian (cell : List (List ℚ)) (p : List ℚ) : List ℚ :=
  (List.range 3).map (fun i =>
    ((List.range 3).map (fun l => p.getD l 0 * (cell.getD l []).getD i 0)).sum)

/-- The post-loop conversion pass of `read_aims`: positions of `atom_frac`
lines are converted to Cartesian coordinates; indexing past the end of `cell`
or of a short position triple is Python's `IndexError`. -/
def convertPositions (cell : List (List ℚ)) :
    List Bool → List (List ℚ) → Except String (List (List ℚ))
  | f :: fs, p :: ps =>
      if f = true then
        if cell.length < 3 ∨ p.length < 3 ∨ (cell.take 3).any (fun row => decide (row.length < 3))
        then Except.error "list index out of range"
        else
          match convertPositions cell fs ps with
          | Except.ok rest => Except.ok (fracToCartesian cell p :: rest)
          | Except.error e => Except.error e
      else
        match convertPositions cell fs ps with
        | Except.ok rest => Except.ok (p :: rest)
        | Except.error e => Except.error e
  | _, _ => Except.ok []

/-- A returned structure (the data `read_aims` hands to the `Atoms`
constructor: cell, chemical symbols, Cartesian positions, and the magnetic
moments when every atom carries one). -/
structure AimsStructure where
  cell : List (List ℚ)
  symbols : List String
  positions : List (List ℚ)
  magmoms : Option (List ℚ)
  deriving DecidableEq

/-- Numpy boolean-mask selection `xs[~constraints]`: keeps the entries whose
mask flag is `false`, in order. -/
def maskFilter {α : Type} : List α → List Bool → List α
  | a :: as, b :: bs => if b then maskFilter as bs else a :: maskFilter as bs
  | _, _ => []

/-- The structure-assembly tail of `read_aims`: numpy mask selection of the
unconstrained atoms (`symbols[~constraints]` etc.), and the `None in magmoms`
test deciding whether the `Atoms` objects carry magnetic moments. -/
def assembleAims (st : AimsParse) (positions : List (List ℚ)) :
    AimsStructure × AimsStructure × List Bool :=
  if st.magmoms.any (fun m => m.isNone) then
    ({ cell := st.cell, symbols := maskFilter st.symbols st.constraints,
       positions := maskFilter positions st.constraints, magmoms := none },
     { cell := st.cell, symbols := st.symbols,
       positions := positions, magmoms := none },
     st.constraints)
  else
    ({ cell := st.cell, symbols := maskFilter st.symbols st.constraints,
       positions := maskFilter positions st.constraints,
       magmoms := some ((maskFilter st.magmoms st.constraints).map (fun m => m.getD 0)) },
     { cell := st.cell, symbols := st.symbols,
       positions := positions,
       magmoms := some (st.magmoms.map (fun m => m.getD 0)) },
     st.constraints)

/-- Embedding of `read_aims`: parses the lines, converts fractional
positions, and returns (constrained-atoms-removed structure, all-atoms
structure, constraint flags). -/
def read_aims (lines : List AimsLine) :
    Except String (AimsStructure × AimsStructure × List Bool) :=
  match parseAims lines with
  | Except.error e => Except.error e
  | Except.ok st =>
      match convertPositions st.cell st.isFrac st.positions with
      | Except.error e => Except.error e
      | Except.ok positions => Except.ok (assembleAims st positions)

/-- Whether a line is an atom line (`atom` or `atom_frac`). -/
def isAtomLine : AimsLine → Bool
  | AimsLine.atomLine _ _ _ => true
  | _ => false

/-- Whether a line is exactly `constrain_relaxation .true.`. -/
def isConstrainTrue : AimsLine → Bool
  | AimsLine.constrainRelaxation arg => arg == ".true."
  | _ => false

/-- Whether the gap after an atom line (everything up to the next atom line)
contains a `constrain_relaxation .true.` marking that atom. -/
def gapMarksTrue (ls : List AimsLine) : Bool :=
  (ls.takeWhile (fun l => !isAtomLine l)).any isConstrainTrue

/-- Specification-level constraint flags: one flag per atom line of the file,
in input order, `true` exactly when a `constrain_relaxation .true.` follows
that atom before the next one. -/
def markedFlags : List AimsLine → List Bool
  | [] => []
  | l :: rest =>
      if isAtomLine l then gapMarksTrue rest :: markedFlags rest else markedFlags rest

/-- The lattice vectors of a file, in order. -/
def cellOf : List AimsLine → List (List ℚ)
  | [] => []
  | AimsLine.latticeVector v :: rest => v :: cellOf rest
  | _ :: rest => cellOf rest

/-- The symbols of the atom lines of a file, in order. -/
def atomSymbols : List AimsLine → List String
  | [] => []
  | AimsLine.atomLine _ _ sym :: rest => sym :: atomSymbols rest
  | _ :: rest => atomSymbols rest

/-- The fractional flags of the atom lines of a file, in order. -/
def atomFracs : List AimsLine → List Bool
  | [] => []
  | AimsLine.atomLine f _ _ :: rest => f :: atomFracs rest
  | _ :: rest => atomFracs rest

/-- The raw position triples of the atom lines of a file, in order. -/
def atomPositions : List AimsLine → List (List ℚ)
  | [] => []
  | AimsLine.atomLine _ p _ :: rest => p :: atomPositions rest
  | _ :: rest => atomPositions rest

/-- A concrete geometry file for the C10 witness: a cubic cell, one plain
atom immediately constrained, and one fractional atom. -/
def demoLines : List AimsLine :=
  [AimsLine.latticeVector [2, 0, 0],
   AimsLine.latticeVector [0, 2, 0],
   AimsLine.latticeVector [0, 0, 2],
   AimsLine.atomLine false [1, 1, 1] "Si",
   AimsLine.constrainRelaxation ".true.",
   AimsLine.atomLine true [1/2, 0, 0] "O"]

/-- The parsed demo geometry. -/
def demoTriple : AimsStructure × AimsStructure × List Bool :=
  (read_aims demoLines).toOption.getD
    (⟨[], [], [], none⟩, ⟨[], [], [], none⟩, [])

/-! ## Iterator lemmas -/

lemma runAtGridPoint_preserves (ker : Kernels) (s : CondState) (i : ℕ) :
    (runAtGridPoint ker s i).gridPoints = s.gridPoints
    ∧ (runAtGridPoint ker s i).gridPointCount = s.gridPointCount
    ∧ (runAtGridPoint ker s i).readGamma = s.readGamma
    ∧ (runAtGridPoint ker s i).gridWeights = s.gridWeights := by
  by_cases h1 : s.readGamma <;> by_cases h2 : ker.isotopeConfigured <;>
    simp [runAtGridPoint, h1, h2]

lemma runAtGridPoint_gamma (ker : Kernels) (s : CondState) (i : ℕ)
    (h : s.readGamma = true) : (runAtGridPoint ker s i).gamma = s.gamma := by
  by_cases h2 : ker.isotopeConfigured <;> simp [runAtGridPoint, h, h2]

lemma nextStep_done (ker : Kernels) (s : CondState)
    (h : s.gridPointCount = s.gridPoints.length) :
    nextStep ker s = (s, Except.error ()) := by
  simp [nextStep, h]

lemma nextStep_ok_facts (ker : Kernels) (s : CondState)
    (h : s.gridPointCount ≠ s.gridPoints.length) :
    (nextStep ker s).snd = Except.ok s.gridPointCount
    ∧ (nextStep ker s).fst.gridPointCount = s.gridPointCount + 1
    ∧ (nextStep ker s).fst.gridPoints = s.gridPoints
    ∧ (nextStep ker s).fst.readGamma = s.readGamma := by
  have hp := runAtGridPoint_preserves ker s s.gridPointCount
  simp only [nextStep, if_neg h]
  exact ⟨by simp [hp.2.1], by simp [hp.2.1], by simp [hp.1], by simp [hp.2.2.1]⟩

lemma nextStep_fst_gamma (ker : Kernels) (s : CondState) (h : s.readGamma = true) :
    (nextStep ker s).fst.gamma = s.gamma := by
  by_cases hc : s.gridPointCount = s.gridPoints.length
  · simp [nextStep, hc]
  · simp only [nextStep, if_neg hc]
    simpa using runAtGridPoint_gamma ker s s.gridPointCount h

lemma nextStep_fst_readGamma (ker : Kernels) (s : CondState) :
    (nextStep ker s).fst.readGamma = s.readGamma := by
  by_cases hc : s.gridPointCount = s.gridPoints.length
  · simp [nextStep, hc]
  · simp only [nextStep, if_neg hc]
    simpa using (runAtGridPoint_preserves ker s s.gridPointCount).2.2.1

lemma runN_done (ker : Kernels) (m : ℕ) (s : CondState)
    (h : s.gridPointCount = s.gridPoints.length) :
    runN ker m s = s := by
  cases m with
  | zero => rfl
  | succ n => rw [runN, nextStep_done ker s h]

lemma runN_facts (ker : Kernels) :
    ∀ (m : ℕ) (s : CondState), s.gridPointCount ≤ s.gridPoints.length →
      (runN ker m s).gridPointCount = min (s.gridPointCount + m) s.gridPoints.length
      ∧ (runN ker m s).gridPoints = s.gridPoints := by
  intro m
  induction m with
  | zero =>
      intro s h
      exact ⟨by simpa [runN] using (Nat.min_eq_left h).symm, rfl⟩
  | succ n ih =>
      intro s h
      by_cases hc : s.gridPointCount = s.gridPoints.length
      · rw [runN_done ker _ s hc]
        constructor
        · omega
        · rfl
      · have hf := nextStep_ok_facts ker s hc
        rcases hns : nextStep ker s with ⟨s1, r⟩
        rw [hns] at hf
        cases r with
        | error e => simp at hf
        | ok v =>
            have h1 : s1.gridPointCount = s.gridPointCount + 1 := hf.2.1
            have h2 : s1.gridPoints = s.gridPoints := hf.2.2.1
            have hle : s1.gridPointCount ≤ s1.gridPoints.length := by
              rw [h1, h2]; omega
            have := ih s1 hle
            rw [runN, hns]
            refine ⟨?_, by rw [this.2, h2]⟩
            rw [this.1, h1, h2]
            omega

lemma runN_gamma (ker : Kernels) :
    ∀ (m : ℕ) (s : CondState), s.readGamma = true → (runN ker m s).gamma = s.gamma := by
  intro m
  induction m with
  | zero => intro s h; rfl
  | succ n ih =>
      intro s h
      rcases hns : nextStep ker s with ⟨s1, r⟩
      have hg : s1.gamma = s.gamma := by
        have := nextStep_fst_gamma ker s h; rw [hns] at this; exact this
      have hr : s1.readGamma = true := by
        have := nextStep_fst_readGamma ker s; rw [hns] at this; rw [this]; exact h
      cases r with
      | error e => rw [runN, hns]
      | ok v => rw [runN, hns]; rw [ih s1 hr, hg]

lemma advanceN_count (ker : Kernels) :
    ∀ (k : ℕ) (s : CondState), s.gridPointCount + k ≤ s.gridPoints.length →
      (advanceN ker k s).gridPointCount = s.gridPointCount + k := by
  intro k
  induction k with
  | zero => intro s h; rfl
  | succ n ih =>
      intro s h
      have hc : s.gridPointCount ≠ s.gridPoints.length := by omega
      have hf := nextStep_ok_facts ker s hc
      rw [advanceN]
      have hle : (nextStep ker s).fst.gridPointCount + n ≤
          (nextStep ker s).fst.gridPoints.length := by
        rw [hf.2.1, hf.2.2.1]; omega
      rw [ih _ hle, hf.2.1]
      omega

lemma advanceN_gamma (ker : Kernels) :
    ∀ (k : ℕ) (s : CondState), s.readGamma = true → (advanceN ker k s).gamma = s.gamma := by
  intro k
  induction k with
  | zero => intro s h; rfl
  | succ n ih =>
      intro s h
      rw [advanceN]
      have hr : (nextStep ker s).fst.readGamma = true := by
        rw [nextStep_fst_readGamma ker s]; exact h
      rw [ih _ hr, nextStep_fst_gamma ker s h]

lemma initAuto_ok (w p : List ℕ) (ga : ℕ → List ℤ) (fr : List (List ℚ)) (na : ℕ)
    (s s0 : CondState) (h : initAutoSampling w p ga fr na s = Except.ok s0) :
    s0.gridPointCount = 0 ∧ s0.gridPoints = p ∧ s0.gridWeights = w
    ∧ s0.readGamma = s.readGamma
    ∧ s0.gamma =
        (if s.readGamma then s.gamma
         else zeros4 s.sigmas.length p.length s.temperatures.length (na * 3))
    ∧ w.sum = coarseSizeOf { s with gridPoints := p, gridWeights := w } := by
  simp only [initAutoSampling] at h
  split at h
  · next hg =>
      injection h with h
      subst h
      refine ⟨rfl, rfl, rfl, ?_, ?_, by simpa using hg⟩
      · simp [allocateValues]
      · simp [allocateValues]
  · exact Except.noConfusion h

/-! ## Claim C1: the automatic-sampling weight-sum assertion -/

/-- C1: in automatic sampling mode (`initialize(None)` with `no_kappa_stars`
false), a successful initialization guarantees the stored grid weights sum to
`prod(mesh / mesh_divisors)`, and when the externally computed weights violate
that equality initialization aborts with an error instead of continuing. -/
theorem auto_weight_sum_check (w p : List ℕ) (ga : ℕ → List ℤ) (fr : List (List ℚ))
    (na : ℕ) (s : CondState) :
    (∀ s0 : CondState, initAutoSampling w p ga fr na s = Except.ok s0 →
        (getGridWeights s0).sum =
          coarseSizeOf { s with gridPoints := p, gridWeights := w })
    ∧ (w.sum ≠ coarseSizeOf { s with gridPoints := p, gridWeights := w } →
        initAutoSampling w p ga fr na s =
          Except.error "grid weight sum does not match coarse mesh size") := by
  constructor
  · intro s0 h
    have hf := initAuto_ok w p ga fr na s s0 h
    rw [getGridWeights, hf.2.2.1]
    exact hf.2.2.2.2.2
  · intro hne
    unfold initAutoSampling
    rw [if_neg hne]

/-- C1 witness: weights summing to 3 against a coarse mesh of 4 points make
initialization abort. -/
theorem auto_weight_sum_check_witness :
    ([3] : List ℕ).sum ≠
      coarseSizeOf { demoState with gridPoints := [0], gridWeights := [3] }
    ∧ initAutoSampling [3] [0] demoAddr [] 1 demoState =
        Except.error "grid weight sum does not match coarse mesh size" :=
  ⟨by decide, (auto_weight_sum_check [3] [0] demoAddr [] 1 demoState).2 (by decide)⟩

/-! ## Claim C6: exhaustion behaviour of `next` -/

/-- C6: once the counter equals the number of grid points, every further
`next` raises the exhaustion signal (`StopIteration`, modelled as
`Except.error ()`), performs no per-point work and leaves the whole state —
all result tensors and the counter included — unchanged, for any number of
repeated calls. -/
theorem next_when_exhausted (ker : Kernels) (s : CondState) (n : ℕ)
    (h : s.gridPointCount = s.gridPoints.length) :
    nextStep ker s = (s, Except.error ())
    ∧ advanceN ker n s = s
    ∧ (nextStep ker (advanceN ker n s)).snd = Except.error () := by
  have h1 := nextStep_done ker s h
  have h2 : advanceN ker n s = s := by
    induction n with
    | zero => rfl
    | succ m ih => rw [advanceN, h1]; exact ih
  exact ⟨h1, h2, by rw [h2, h1]⟩

/-- C6 witness: `demoState` has no grid points, so it is already exhausted. -/
theorem next_when_exhausted_witness :
    demoState.gridPointCount = demoState.gridPoints.length
    ∧ (nextStep demoKernels demoState = (demoState, Except.error ())
       ∧ advanceN demoKernels 3 demoState = demoState
       ∧ (nextStep demoKernels (advanceN demoKernels 3 demoState)).snd = Except.error ()) :=
  ⟨rfl, next_when_exhausted demoKernels demoState 3 rfl⟩

/-! ## Claim C7: `run` is stepping until exhaustion -/

/-- C7: from any reachable driver state (counter at most the number of grid
points), `run()` produces exactly the same final state — all result tensors
and counters — as calling `next` one grid point at a time, in order, any
number `m` of times sufficient to reach exhaustion. -/
theorem run_equals_stepping (ker : Kernels) (m : ℕ) :
    ∀ s : CondState, s.gridPointCount ≤ s.gridPoints.length →
      s.gridPoints.length - s.gridPointCount ≤ m →
      runDrive ker s = runN ker m s := by
  induction m with
  | zero =>
      intro s hle hm
      have h0 : s.gridPoints.length - s.gridPointCount = 0 := by omega
      unfold runDrive
      rw [h0]
  | succ n ih =>
      intro s hle hm
      by_cases hc : s.gridPointCount = s.gridPoints.length
      · unfold runDrive
        have h0 : s.gridPoints.length - s.gridPointCount = 0 := by omega
        rw [h0]
        exact (runN_done ker (n + 1) s hc).symm
      · have hf := nextStep_ok_facts ker s hc
        rcases hns : nextStep ker s with ⟨s1, r⟩
        rw [hns] at hf
        cases r with
        | error e => simp at hf
        | ok v =>
            have h1 : s1.gridPointCount = s.gridPointCount + 1 := hf.2.1
            have h2 : s1.gridPoints = s.gridPoints := hf.2.2.1
            have hle1 : s1.gridPointCount ≤ s1.gridPoints.length := by
              rw [h1, h2]; omega
            have hm1 : s1.gridPoints.length - s1.gridPointCount ≤ n := by
              rw [h1, h2]; omega
            have hk : s.gridPoints.length - s.gridPointCount
                = (s.gridPoints.length - (s.gridPointCount + 1)) + 1 := by omega
            calc runDrive ker s
                = runN ker ((s.gridPoints.length - (s.gridPointCount + 1)) + 1) s := by
                  unfold runDrive; rw [hk]
              _ = runN ker (s.gridPoints.length - (s.gridPointCount + 1)) s1 := by
                  rw [runN, hns]
              _ = runDrive ker s1 := by
                  unfold runDrive; rw [h1, h2]
              _ = runN ker n s1 := ih s1 hle1 hm1
              _ = runN ker (n + 1) s := by rw [runN, hns]

/-- C7 witness: on the initialized one-point demo state, `run()` equals five
manual `next` calls. -/
theorem run_equals_stepping_witness :
    (demoInitW.gridPointCount ≤ demoInitW.gridPoints.length
      ∧ demoInitW.gridPoints.length - demoInitW.gridPointCount ≤ 5)
    ∧ runDrive demoKernels demoInitW = runN demoKernels 5 demoInitW :=
  ⟨by constructor <;> decide,
   run_equals_stepping demoKernels 5 demoInitW (by decide) (by decide)⟩

/-! ## Claim C9: the processed-point counter -/

/-- C9: the counter is 0 right after initialization; every successful advance
returns the zero-based index of the point just processed and increments the
counter by exactly one; after `k` advances from a fresh initialization the
counter reads `k`; and a completed `run` reports the total number of selected
grid points. -/
theorem grid_point_count_semantics (ker : Kernels) (w p : List ℕ) (ga : ℕ → List ℤ)
    (fr : List (List ℚ)) (na : ℕ) (s s0 : CondState)
    (hinit : initAutoSampling w p ga fr na s = Except.ok s0) :
    getGridPointCount s0 = 0
    ∧ (∀ t : CondState, t.gridPointCount < t.gridPoints.length →
        (nextStep ker t).snd = Except.ok (getGridPointCount t)
        ∧ getGridPointCount (nextStep ker t).fst = getGridPointCount t + 1)
    ∧ (∀ k : ℕ, k ≤ s0.gridPoints.length →
        getGridPointCount (advanceN ker k s0) = k)
    ∧ getGridPointCount (runDrive ker s0) = s0.gridPoints.length := by
  have h0 : s0.gridPointCount = 0 := (initAuto_ok w p ga fr na s s0 hinit).1
  refine ⟨h0, ?_, ?_, ?_⟩
  · intro t ht
    have hf := nextStep_ok_facts ker t (by omega)
    exact ⟨hf.1, hf.2.1⟩
  · intro k hk
    simp only [getGridPointCount]
    rw [advanceN_count ker k s0 (by omega), h0]
    omega
  · have hle : s0.gridPointCount ≤ s0.gridPoints.length := by omega
    have hmin := (runN_facts ker (s0.gridPoints.length - s0.gridPointCount) s0 hle).1
    simp only [getGridPointCount, runDrive]
    rw [hmin]
    omega

/-- C9 witness on the one-point demo state. -/
theorem grid_point_count_semantics_witness :
    initAutoSampling [4] [0] demoAddr [] 1 demoState = Except.ok demoInitW
    ∧ getGridPointCount demoInitW = 0
    ∧ getGridPointCount (runDrive demoKernels demoInitW) = demoInitW.gridPoints.length :=
  ⟨rfl,
   (grid_point_count_semantics demoKernels [4] [0] demoAddr [] 1 demoState demoInitW rfl).1,
   (grid_point_count_semantics demoKernels [4] [0] demoAddr [] 1 demoState demoInitW rfl).2.2.2⟩

/-! ## Claim C4: pass-through of an externally supplied gamma -/

/-- C4: when a linewidth tensor is supplied through `set_gamma` before
initialization, allocation keeps the supplied array as the backing store
(no reallocation or zeroing), and after driving the iterator to completion —
by `run` or by any number of manual `next` calls — the gamma tensor is still
exactly the supplied input: no per-point linewidth computation writes to it. -/
theorem supplied_gamma_passthrough (ker : Kernels) (g : T4) (w p : List ℕ)
    (ga : ℕ → List ℤ) (fr : List (List ℚ)) (na : ℕ) (s s0 : CondState)
    (hinit : initAutoSampling w p ga fr na (setGamma s g) = Except.ok s0) :
    getGamma s0 = g ∧ s0.readGamma = true
    ∧ getGamma (runDrive ker s0) = g
    ∧ ∀ n : ℕ, getGamma (advanceN ker n s0) = g := by
  have hf := initAuto_ok w p ga fr na (setGamma s g) s0 hinit
  have hrg : s0.readGamma = true := by rw [hf.2.2.2.1]; rfl
  have hg : s0.gamma = g := by
    rw [hf.2.2.2.2.1]; simp [setGamma]
  refine ⟨hg, hrg, ?_, ?_⟩
  · simp only [getGamma, runDrive]
    rw [runN_gamma ker _ s0 hrg, hg]
  · intro n
    simp only [getGamma]
    rw [advanceN_gamma ker n s0 hrg, hg]

/-- C4 witness: the supplied tensor survives allocation and a complete run. -/
theorem supplied_gamma_passthrough_witness :
    initAutoSampling [4] [0] demoAddr [] 1 (setGamma demoState demoGamma) = Except.ok demoInitG
    ∧ getGamma demoInitG = demoGamma
    ∧ getGamma (runDrive demoKernels demoInitG) = demoGamma :=
  ⟨rfl,
   (supplied_gamma_passthrough demoKernels demoGamma [4] [0] demoAddr [] 1
      demoState demoInitG rfl).1,
   (supplied_gamma_passthrough demoKernels demoGamma [4] [0] demoAddr [] 1
      demoState demoInitG rfl).2.2.1⟩

/-! ## Claim C5: no shape check at allocation -/

/-- C5 counterexample: an externally supplied gamma of the wrong shape does
NOT make allocation fail — initialization succeeds and keeps the malformed
array untouched, so nothing fails fast at allocation time. -/
theorem gamma_shape_not_checked_cex :
    shape4Ok demoBadGamma demoState.sigmas.length 1 demoState.temperatures.length (1 * 3) = false
    ∧ Except.map getGamma
        (initAutoSampling [4] [0] demoAddr [] 1 (setGamma demoState demoBadGamma)) =
        Except.ok demoBadGamma :=
  ⟨by decide, rfl⟩

/-- C5 (amended): allocation performs no validation of an externally supplied
linewidth array: `_allocate_values` keeps the supplied array unchanged
whatever its shape, and whether initialization succeeds is entirely
independent of the supplied array — a malformed array is not detected at
allocation time (nor anywhere else in the driver). -/
theorem gamma_shape_ignored (w p : List ℕ) (ga : ℕ → List ℤ) (fr : List (List ℚ))
    (na : ℕ) (s : CondState) (g1 g2 : T4) :
    (∀ s0 : CondState, initAutoSampling w p ga fr na (setGamma s g1) = Except.ok s0 →
        getGamma s0 = g1)
    ∧ exceptOk (initAutoSampling w p ga fr na (setGamma s g1)) =
        exceptOk (initAutoSampling w p ga fr na (setGamma s g2)) := by
  constructor
  · intro s0 h
    have hf := initAuto_ok w p ga fr na (setGamma s g1) s0 h
    rw [getGamma, hf.2.2.2.2.1]
    simp [setGamma]
  · simp only [initAutoSampling, setGamma, coarseSizeOf]
    split_ifs <;> rfl

/-- C5 witness: initialization accepts the malformed array unchanged. -/
theorem gamma_shape_ignored_witness :
    initAutoSampling [4] [0] demoAddr [] 1 (setGamma demoState demoBadGamma) =
      Except.ok demoInitBad
    ∧ getGamma demoInitBad = demoBadGamma :=
  ⟨rfl,
   (gamma_shape_ignored [4] [0] demoAddr [] 1 demoState demoBadGamma demoBadGamma).1
     demoInitBad rfl⟩

/-! ## Claim C8: integration-weight requests per smearing entry -/

lemma countIW_append (a b : List ISECall) : countIW (a ++ b) = countIW a + countIW b := by
  induction a with
  | nil => simp [countIW]
  | cons x xs ih => cases x <;> simp [countIW, ih] <;> omega

lemma countIW_tempLoop (iseOut : Option ℚ → ℚ → T1) (sigma : Option ℚ) (j i : ℕ) :
    ∀ (ts : List ℚ) (k : ℕ) (g : T4),
      countIW (setGammaTempLoop iseOut sigma j i ts k g).snd = 0 := by
  intro ts
  induction ts with
  | nil => intro k g; rfl
  | cons t ts ih => intro k g; simp [setGammaTempLoop, countIW, ih]

lemma countIW_sigmaLoop (iseOut : Option ℚ → ℚ → T1) (temps : List ℚ) (i : ℕ) :
    ∀ (ss : List (Option ℚ)) (j : ℕ) (g : T4),
      countIW (setGammaSigmaLoop iseOut temps i ss j g).snd = ss.countP pyFalsy := by
  intro ss
  induction ss with
  | nil => intro j g; rfl
  | cons s ss ih =>
      intro j g
      by_cases hs : pyFalsy s <;>
        simp [setGammaSigmaLoop, hs, countIW, countIW_append, countIW_tempLoop, ih,
          List.countP_cons] <;> omega

/-- C8 counterexample: the numeric smearing width 0 is not the tetrahedron
sentinel (`None`), yet one integration-weight request is issued for it,
because the source tests Python truthiness (`if not sigma`) instead of
`sigma is None`. -/
theorem integration_weights_zero_sigma_cex :
    countIW (setGammaAtSigmas [some 0] [0, 300] (fun _ _ => [0]) 0 (zeros4 1 1 2 1)).snd = 1
    ∧ some (0 : ℚ) ≠ (none : Option ℚ) :=
  ⟨rfl, by decide⟩

/-- C8 (amended): during per-point linewidth computation, integration weights
are requested exactly once per smearing entry whose value is falsy — the
tetrahedron sentinel `None` OR the numeric width 0 — independently of the
number of temperatures (never repeated per temperature); for every nonzero
numeric width no request is made. -/
theorem integration_weights_count (sigmas : List (Option ℚ)) (temps : List ℚ)
    (iseOut : Option ℚ → ℚ → T1) (i : ℕ) (g : T4) :
    countIW (setGammaAtSigmas sigmas temps iseOut i g).snd =
      sigmas.countP (fun σ => decide (σ = none ∨ σ = some 0)) := by
  rw [setGammaAtSigmas, countIW_sigmaLoop]
  apply List.countP_congr
  intro σ _
  cases σ with
  | none => simp [pyFalsy]
  | some x => simp [pyFalsy]

/-! ## Claim C10: the FHI-aims reader -/

lemma parse_cons_ok (st st' : AimsParse) (l : AimsLine) (rest : List AimsLine)
    (h : List.foldlM parseAimsLine st (l :: rest) = Except.ok st') :
    ∃ st1, parseAimsLine st l = Except.ok st1
      ∧ List.foldlM parseAimsLine st1 rest = Except.ok st' := by
  have h' : (parseAimsLine st l >>= fun b => List.foldlM parseAimsLine b rest)
      = Except.ok st' := h
  cases hp : parseAimsLine st l with
  | error e =>
      rw [hp] at h'
      exact Except.noConfusion h'
  | ok st1 =>
      rw [hp] at h'
      exact ⟨st1, rfl, h'⟩

lemma parse_accum : ∀ (lines : List AimsLine) (st st' : AimsParse),
    List.foldlM parseAimsLine st lines = Except.ok st' →
    st'.cell = st.cell ++ cellOf lines
    ∧ st'.symbols = st.symbols ++ atomSymbols lines
    ∧ st'.isFrac = st.isFrac ++ atomFracs lines
    ∧ st'.positions = st.positions ++ atomPositions lines := by
  intro lines
  induction lines with
  | nil =>
      intro st st' h
      have h' : Except.ok st = Except.ok st' := h
      injection h' with h'
      subst h'
      simp [cellOf, atomSymbols, atomFracs, atomPositions]
  | cons l rest ih =>
      intro st st' h
      obtain ⟨st1, hp, hrest⟩ := parse_cons_ok st st' l rest h
      have hr := ih st1 st' hrest
      cases l with
      | latticeVector v =>
          injection hp with hp
          subst hp
          simp [hr.1, hr.2.1, hr.2.2.1, hr.2.2.2, cellOf, atomSymbols, atomFracs, atomPositions]
      | atomLine f p sym =>
          injection hp with hp
          subst hp
          simp [hr.1, hr.2.1, hr.2.2.1, hr.2.2.2, cellOf, atomSymbols, atomFracs, atomPositions]
      | initialMoment m =>
          simp only [parseAimsLine] at hp
          split at hp
          · exact Except.noConfusion hp
          · injection hp with hp
            subst hp
            simp [hr.1, hr.2.1, hr.2.2.1, hr.2.2.2, cellOf, atomSymbols, atomFracs, atomPositions]
      | constrainRelaxation arg =>
          simp only [parseAimsLine] at hp
          split at hp
          · exact Except.noConfusion hp
          · injection hp with hp
            subst hp
            simp [hr.1, hr.2.1, hr.2.2.1, hr.2.2.2, cellOf, atomSymbols, atomFracs, atomPositions]
      | other =>
          injection hp with hp
          subst hp
          simp [hr.1, hr.2.1, hr.2.2.1, hr.2.2.2, cellOf, atomSymbols, atomFracs, atomPositions]

lemma gapMarksTrue_nonatom (l : AimsLine) (rest : List AimsLine) (h : isAtomLine l = false) :
    gapMarksTrue (l :: rest) = (isConstrainTrue l || gapMarksTrue rest) := by
  simp [gapMarksTrue, h]

lemma markedFlags_nonatom (l : AimsLine) (rest : List AimsLine) (h : isAtomLine l = false) :
    markedFlags (l :: rest) = markedFlags rest := by
  simp [markedFlags, h]

lemma no_gap_mark_of_warning : ∀ (lines : List AimsLine) (st st' : AimsParse),
    st.constrainWarning = true →
    List.foldlM parseAimsLine st lines = Except.ok st' →
    gapMarksTrue lines = false := by
  intro lines
  induction lines with
  | nil => intro st st' hw h; rfl
  | cons l rest ih =>
      intro st st' hw h
      obtain ⟨st1, hp, hrest⟩ := parse_cons_ok st st' l rest h
      cases l with
      | atomLine f p sym => simp [gapMarksTrue, isAtomLine]
      | constrainRelaxation arg =>
          simp only [parseAimsLine, hw, if_true] at hp
          exact Except.noConfusion hp
      | latticeVector v =>
          injection hp with hp
          subst hp
          have hg := ih _ st' (by exact hw) hrest
          simpa [gapMarksTrue, isAtomLine, isConstrainTrue] using hg
      | initialMoment m =>
          simp only [parseAimsLine] at hp
          split at hp
          · exact Except.noConfusion hp
          · injection hp with hp
            subst hp
            have hg := ih _ st' (by exact hw) hrest
            simpa [gapMarksTrue, isAtomLine, isConstrainTrue] using hg
      | other =>
          injection hp with hp
          subst hp
          have hg := ih _ st' (by exact hw) hrest
          simpa [gapMarksTrue, isAtomLine, isConstrainTrue] using hg

lemma parse_constraints : ∀ (lines : List AimsLine) (st st' : AimsParse),
    List.foldlM parseAimsLine st lines = Except.ok st' →
    (st.constrainWarning = true → st'.constraints = st.constraints ++ markedFlags lines)
    ∧ (st.constrainWarning = false → ∀ cs : List Bool, st.constraints = cs ++ [false] →
        st'.constraints = cs ++ gapMarksTrue lines :: markedFlags lines) := by
  intro lines
  induction lines with
  | nil =>
      intro st st' h
      have h' : Except.ok st = Except.ok st' := h
      injection h' with h'
      subst h'
      constructor
      · intro hw; simp [markedFlags]
      · intro hw cs hcs; simp [markedFlags, gapMarksTrue, hcs]
  | cons l rest ih =>
      intro st st' h
      obtain ⟨st1, hp, hrest⟩ := parse_cons_ok st st' l rest h
      have ihr := ih st1 st' hrest
      cases l with
      | atomLine f p sym =>
          injection hp with hp
          subst hp
          have hB := ihr.2 rfl
          constructor
          · intro hw
            have := hB st.constraints rfl
            simpa [markedFlags, isAtomLine] using this
          · intro hw cs hcs
            have := hB st.constraints rfl
            rw [this, hcs]
            simp [markedFlags, gapMarksTrue, isAtomLine]
      | latticeVector v =>
          injection hp with hp
          subst hp
          constructor
          · intro hw
            have := ihr.1 hw
            simpa [markedFlags, gapMarksTrue, isAtomLine, isConstrainTrue] using this
          · intro hw cs hcs
            have := ihr.2 hw cs hcs
            simpa [markedFlags, gapMarksTrue, isAtomLine, isConstrainTrue] using this
      | initialMoment m =>
          simp only [parseAimsLine] at hp
          split at hp
          · exact Except.noConfusion hp
          · injection hp with hp
            subst hp
            constructor
            · intro hw
              have := ihr.1 hw
              simpa [markedFlags, gapMarksTrue, isAtomLine, isConstrainTrue] using this
            · intro hw cs hcs
              have := ihr.2 hw cs hcs
              simpa [markedFlags, gapMarksTrue, isAtomLine, isConstrainTrue] using this
      | constrainRelaxation arg =>
          simp only [parseAimsLine] at hp
          split at hp
          · exact Except.noConfusion hp
          · next hwf =>
              injection hp with hp
              subst hp
              constructor
              · intro hw; exact absurd hw hwf
              · intro hw cs hcs
                have hA := ihr.1 rfl
                have hgap : gapMarksTrue rest = false :=
                  no_gap_mark_of_warning rest _ st' rfl hrest
                rw [hA, hcs, gapMarksTrue_nonatom (AimsLine.constrainRelaxation arg) rest rfl,
                  markedFlags_nonatom (AimsLine.constrainRelaxation arg) rest rfl, hgap]
                by_cases harg : arg = ".true."
                · simp [harg, setLast, isConstrainTrue, List.dropLast_concat]
                · simp [harg, isConstrainTrue]
      | other =>
          injection hp with hp
          subst hp
          constructor
          · intro hw
            have := ihr.1 hw
            simpa [markedFlags, gapMarksTrue, isAtomLine, isConstrainTrue] using this
          · intro hw cs hcs
            have := ihr.2 hw cs hcs
            simpa [markedFlags, gapMarksTrue, isAtomLine, isConstrainTrue] using this

lemma parse_constraints_top (lines : List AimsLine) (st : AimsParse)
    (h : parseAims lines = Except.ok st) : st.constraints = markedFlags lines := by
  have := (parse_constraints lines initAimsParse st h).1 rfl
  simpa [initAimsParse] using this

lemma convert_ok (cell : List (List ℚ)) : ∀ (fs : List Bool) (ps : List (List ℚ))
    (out : List (List ℚ)), convertPositions cell fs ps = Except.ok out →
    out = (List.zip fs ps).map
      (fun fp => if fp.fst = true then fracToCartesian cell fp.snd else fp.snd) := by
  intro fs
  induction fs with
  | nil =>
      intro ps out h
      have h' : Except.ok ([] : List (List ℚ)) = Except.ok out := h
      injection h' with h'
      subst h'
      simp
  | cons f fs ih =>
      intro ps out h
      cases ps with
      | nil =>
          have h' : Except.ok ([] : List (List ℚ)) = Except.ok out := h
          injection h' with h'
          subst h'
          simp
      | cons p ps =>
          simp only [convertPositions] at h
          by_cases hf : f = true
          · rw [if_pos hf] at h
            split at h
            · exact Except.noConfusion h
            · cases hc : convertPositions cell fs ps with
              | error e => rw [hc] at h; exact Except.noConfusion h
              | ok rest =>
                  rw [hc] at h
                  injection h with h
                  subst h
                  simp [hf, ih ps rest hc]
          · rw [if_neg hf] at h
            cases hc : convertPositions cell fs ps with
            | error e => rw [hc] at h; exact Except.noConfusion h
            | ok rest =>
                rw [hc] at h
                injection h with h
                subst h
                simp [hf, ih ps rest hc]

lemma maskFilter_eq_filter {α : Type} : ∀ (l : List α) (bs : List Bool),
    maskFilter l bs = ((List.zip l bs).filter (fun x => !x.snd)).map Prod.fst := by
  intro l
  induction l with
  | nil => intro bs; simp [maskFilter]
  | cons a as ih =>
      intro bs
      cases bs with
      | nil => simp [maskFilter]
      | cons b bs => cases b <;> simp [maskFilter, ih]

/-- C10: for every geometry file `read_aims` parses successfully, the
constraint flags mark exactly the atoms followed by `constrain_relaxation
.true.`; the second returned structure holds all atoms in input order, with
`atom_frac` positions converted to `sum over l of frac[l] * cell[l]` and
plain `atom` positions stored unchanged; and the first returned structure
holds exactly the unconstrained atoms, in input order. -/
lemma read_aims_ok_inv (lines : List AimsLine)
    (res : AimsStructure × AimsStructure × List Bool)
    (h : read_aims lines = Except.ok res) :
    ∃ st ps, parseAims lines = Except.ok st
      ∧ convertPositions st.cell st.isFrac st.positions = Except.ok ps
      ∧ res = assembleAims st ps := by
  unfold read_aims at h
  split at h
  · exact Except.noConfusion h
  · next st hps =>
      split at h
      · exact Except.noConfusion h
      · next ps hcv =>
          injection h with h
          exact ⟨st, ps, hps, hcv, h.symm⟩

theorem read_aims_filter_and_frac (lines : List AimsLine)
    (atoms allAtoms : AimsStructure) (cons : List Bool)
    (hr : read_aims lines = Except.ok (atoms, allAtoms, cons)) :
    cons = markedFlags lines
    ∧ allAtoms.symbols = atomSymbols lines
    ∧ allAtoms.positions = (List.zip (atomFracs lines) (atomPositions lines)).map
        (fun fp => if fp.fst = true then fracToCartesian (cellOf lines) fp.snd else fp.snd)
    ∧ atoms.symbols =
        ((List.zip allAtoms.symbols cons).filter (fun x => !x.snd)).map Prod.fst
    ∧ atoms.positions =
        ((List.zip allAtoms.positions cons).filter (fun x => !x.snd)).map Prod.fst := by
  obtain ⟨st, ps, hps, hcv, hres⟩ := read_aims_ok_inv lines (atoms, allAtoms, cons) hr
  have hacc := parse_accum lines initAimsParse st hps
  have hcons : st.constraints = markedFlags lines := parse_constraints_top lines st hps
  have hcell : st.cell = cellOf lines := by simpa [initAimsParse] using hacc.1
  have hsym : st.symbols = atomSymbols lines := by simpa [initAimsParse] using hacc.2.1
  have hfrac : st.isFrac = atomFracs lines := by simpa [initAimsParse] using hacc.2.2.1
  have hpos : st.positions = atomPositions lines := by
    simpa [initAimsParse] using hacc.2.2.2
  have hconv : ps = (List.zip (atomFracs lines) (atomPositions lines)).map
      (fun fp => if fp.fst = true then fracToCartesian (cellOf lines) fp.snd else fp.snd) := by
    have hck := convert_ok st.cell st.isFrac st.positions ps hcv
    rw [hcell, hfrac, hpos] at hck
    exact hck
  unfold assembleAims at hres
  split_ifs at hres <;>
  · simp only [Prod.mk.injEq] at hres
    obtain ⟨ha, hb, hc⟩ := hres
    refine ⟨by rw [hc, hcons], by rw [hb]; exact hsym, by rw [hb]; exact hconv, ?_, ?_⟩
    · rw [ha, hb, hc]
      exact maskFilter_eq_filter st.symbols st.constraints
    · rw [ha, hb, hc]
      exact maskFilter_eq_filter ps st.constraints

/-- C10 witness: the demo geometry (one constrained plain atom, one
fractional atom) parses as claimed. -/
theorem read_aims_filter_and_frac_witness :
    read_aims demoLines = Except.ok demoTriple
    ∧ demoTriple.2.2 = markedFlags demoLines
    ∧ demoTriple.1.symbols =
        ((List.zip demoTriple.2.1.symbols demoTriple.2.2).filter
          (fun x => !x.snd)).map Prod.fst := by
  have h : read_aims demoLines = Except.ok (demoTriple.1, demoTriple.2.1, demoTriple.2.2) := rfl
  have hm := read_aims_filter_and_frac demoLines demoTriple.1 demoTriple.2.1 demoTriple.2.2 h
  exact ⟨h, hm.1, hm.2.2.2.1⟩

end PhonopyModel
